import Mathlib

/-!
Verification of the polling-and-retry / materialization core of the v0 chat
creator scripts.  The definitions below are a shallow embedding of the
JavaScript sources:

* `saveFiles`, `downloadGeneratedCode`, `createIndexFile` embed the write
  phase of `downloadGeneratedCode` and the index-manifest step
  (v0-chat-creator-sdk.js lines 155-267, and the identical code in the
  enforced variant, src/unnamed/part_000 lines 132-247).
* `waitLoop` / `waitAndDownloadEnforced` embed the enforced polling loop and
  its final download strategies (src/unnamed/part_000 lines 257-344).
* `downloadWithRetries` embeds the staged retry shape shared by the final
  strategies loop (part_000 lines 322-343) and the aggressive retry loop of
  `createAndDownload` (part_000 lines 417-443).
* `fixImportPaths` / `ensureBackendIntegration` embed
  backend-integration-config.js lines 80-189 (restricted to the import-fixing
  step, the subject of the claims about that file).
* `parseArgs` / `entryMain` embed the CLI entry block of the enforced script
  (part_000 lines 466-630; the other two variants share the relevant logic).

The file system is modelled as a list of directories plus an association list
of written files in which a later write shadows an earlier one.  Remote calls
are modelled by oracles (`WaitEnv`): the outcome of the n-th poll and of the
n-th download attempt.  Sleeps advance a millisecond clock; remote calls are
instantaneous.  The unbounded while-loop is embedded with a fuel parameter
whose zero case coincides with the deadline exit; every iteration advances
the clock by at least 2000 ms, so the top-level fuel of `maxWaitTime + 1`
iterations can never run out before the `maxWaitTime * 1000` ms deadline
does.
-/

/-- A generated file object as delivered by the remote chat: it either carries
`name`/`content` (the latestVersion.files shape) or `meta.file`/`source` (the
chat.files shape).  `none` models an absent JS field. -/
structure V0File where
  name : Option String
  content : Option String
  metaFile : Option String
  source : Option String
deriving DecidableEq

/-- JavaScript truthiness of an optional string field: present and non-empty. -/
def truthy : Option String → Bool
  | none => false
  | some s => !(s == "")

/-- The branch cascade of the save loop: prefer `name`/`content`, fall back to
`meta.file`/`source`, otherwise the entry is skipped
(v0-chat-creator-sdk.js lines 193-203). -/
def resolveFile (f : V0File) : Option (String × String) :=
  if truthy f.name && truthy f.content then
    some (f.name.getD "", f.content.getD "")
  else if truthy f.metaFile && truthy f.source then
    some (f.metaFile.getD "", f.source.getD "")
  else
    none

/-- The name of a well-formed (name/content) file. -/
def fileNameOf (f : V0File) : String := f.name.getD ""

/-- The content of a well-formed (name/content) file. -/
def contentOf (f : V0File) : String := f.content.getD ""

/-- Well-formed per the claims: `name` and `content` both present, non-empty. -/
def wellFormed (f : V0File) : Bool := truthy f.name && truthy f.content

/-- Split a character list at a separator character, keeping empty segments
(the single-character-separator case of `String.splitOn`). -/
def splitOnChar (sep : Char) : List Char → List (List Char)
  | [] => [[]]
  | c :: rest =>
    let r := splitOnChar sep rest
    if c == sep then [] :: r
    else (c :: r.headD []) :: r.tail

/-- Join character-list segments with a separator. -/
def joinWith (sep : List Char) : List (List Char) → List Char
  | [] => []
  | [x] => x
  | x :: rest => x ++ sep ++ joinWith sep rest

/-- String join with a separator (`Array.prototype.join` on strings). -/
def sjoin (sep : String) (xs : List String) : String :=
  ⟨joinWith sep.data (xs.map String.data)⟩

/-- `String.prototype.startsWith` via list prefix testing. -/
def jsStartsWith (s pre : String) : Bool := List.isPrefixOf pre.data s.data

/-- `String.prototype.endsWith` via list suffix testing. -/
def jsEndsWith (s suffix : String) : Bool := List.isSuffixOf suffix.data s.data

/-- Normalization pass of `path.posix.normalize` over the split segments of a
path: empty segments (collapsed slashes) and `.` segments are dropped; a
`..` segment pops the previous segment when one exists, is dropped at the
root of an absolute path, and is kept at the head of a relative path.  The
accumulator holds the kept segments in reverse. -/
def normSegs (isAbs : Bool) (acc : List (List Char)) :
    List (List Char) → List (List Char)
  | [] => acc.reverse
  | s :: rest =>
    if s.isEmpty || s == [Char.ofNat 46] then normSegs isAbs acc rest
    else if s == [Char.ofNat 46, Char.ofNat 46] then
      match acc with
      | t :: acc2 =>
        if t == [Char.ofNat 46, Char.ofNat 46] then normSegs isAbs (s :: acc) rest
        else normSegs isAbs acc2 rest
      | [] => if isAbs then normSegs isAbs [] rest else normSegs isAbs (s :: acc) rest
    else normSegs isAbs (s :: acc) rest

/-- `path.join(a, b)` for forward-slash paths: concatenate with a separator,
then normalize.  In particular distinct name spellings such as `./a.js` and
`a.js` resolve to the same on-disk path under the same root. -/
def pathJoin (a b : String) : String :=
  let isAbs := jsStartsWith a "/"
  let norm := normSegs isAbs [] (splitOnChar (Char.ofNat 47) (a ++ "/" ++ b).data)
  if isAbs then ⟨Char.ofNat 47 :: joinWith [Char.ofNat 47] norm⟩
  else if norm.isEmpty then "."
  else ⟨joinWith [Char.ofNat 47] norm⟩

/-- `path.dirname` for forward-slash paths. -/
def dirname (p : String) : String :=
  let parts := splitOnChar (Char.ofNat 47) p.data
  if parts.length ≤ 1 then "."
  else ⟨joinWith [Char.ofNat 47] parts.dropLast⟩

/-- Local file-system state: created directories and written files.  A write
conses onto the file list, so a later write shadows an earlier one, exactly
like `fs.writeFileSync` overwriting. -/
structure FS where
  dirs : List String
  files : List (String × String)
deriving DecidableEq

/-- Whole-file overwrite-if-exists write (`fs.writeFileSync`). -/
def fsWrite (fs : FS) (p c : String) : FS :=
  { fs with files := (p, c) :: fs.files }

/-- Read the current bytes of a file back from disk. -/
def fsRead (fs : FS) (p : String) : Option String :=
  (fs.files.find? (fun e => e.1 == p)).map (fun e => e.2)

/-- `if (!fs.existsSync(d)) fs.mkdirSync(d, { recursive: true })`.  Ancestor
directories are not tracked individually; the claims only inspect the
directory paths requested. -/
def fsMkdirp (fs : FS) (d : String) : FS :=
  if fs.dirs.contains d then fs else { fs with dirs := d :: fs.dirs }

/-- The save loop of `downloadGeneratedCode` (sdk lines 189-223): for each
resolvable entry, create its parent directory, write the content, and record
the path; unresolvable entries are skipped and processing continues. -/
def saveFiles (outputDir : String) : List V0File → FS → List String × FS
  | [], fs => ([], fs)
  | f :: rest, fs =>
    match resolveFile f with
    | some nc =>
      let p := pathJoin outputDir nc.1
      let fs2 := fsWrite (fsMkdirp fs (dirname p)) p nc.2
      let r := saveFiles outputDir rest fs2
      (p :: r.1, r.2)
    | none => saveFiles outputDir rest fs

/-- Does `pat` occur as a contiguous sublist of the second argument? -/
def listHasInfix (pat : List Char) : List Char → Bool
  | [] => pat.isEmpty
  | a :: rest => pat.isPrefixOf (a :: rest) || listHasInfix pat rest

/-- `String.prototype.includes` via list infix testing. -/
def jsIncludes (s sub : String) : Bool := listHasInfix sub.data s.data

/-- `path.extname` on a base component: the suffix from the last dot, empty
for dotfiles and extensionless names. -/
def extnameOf (b : List Char) : List Char :=
  let parts := splitOnChar (Char.ofNat 46) b
  if parts.length ≤ 1 then []
  else if (parts.headD []).isEmpty && parts.length == 2 then []
  else Char.ofNat 46 :: parts.getLastD []

/-- `path.basename(filePath, path.extname(filePath))`. -/
def baseName (p : String) : String :=
  let b := (splitOnChar (Char.ofNat 47) p.data).getLastD []
  ⟨b.take (b.length - (extnameOf b).length)⟩

/-- A single-quote character, used in the generated manifest lines. -/
def squote : String := String.singleton (Char.ofNat 39)

/-- One re-export line of the generated index file (sdk lines 254-257). -/
def exportLine (filePath : String) : String :=
  let fileName := baseName filePath
  "export \x7b default as " ++ fileName ++ " \x7d from " ++
    squote ++ "./" ++ fileName ++ squote ++ ";"

/-- The filter of `createIndexFile` (sdk lines 247-250): keep `.jsx`/`.tsx`
files, and `.js` files whose full path does not contain the substring
`index`. -/
def isComponentFile (f : String) : Bool :=
  jsEndsWith f ".jsx" || jsEndsWith f ".tsx" ||
    (jsEndsWith f ".js" && !(jsIncludes f "index"))

/-- `createIndexFile` (sdk lines 245-267): write one `index.js` manifest at
the destination root when at least one saved file passes the filter. -/
def createIndexFile (outputDir : String) (savedFiles : List String) (fs : FS) : FS :=
  let componentFiles := savedFiles.filter isComponentFile
  if componentFiles.length == 0 then fs
  else
    let indexContent := sjoin "\n" (componentFiles.map exportLine)
    fsWrite fs (pathJoin outputDir "index.js") (indexContent ++ "\n")

/-- File-list resolution of `downloadGeneratedCode` (sdk lines 165-173):
prefer the non-empty `latestVersion.files`, fall back to `chat.files`. -/
def chooseFiles (latestFiles chatFiles : List V0File) : List V0File :=
  if latestFiles.length > 0 then latestFiles
  else if chatFiles.length > 0 then chatFiles
  else []

/-- The local write phase of `downloadGeneratedCode` (sdk lines 175-232) on an
already-fetched file list.  `indexWriteOk = false` models the manifest write
throwing; `createIndexFile` runs inside its own try/catch, so a failure leaves
the saved list untouched. -/
def downloadGeneratedCode (files : List V0File) (outputDir : String)
    (indexWriteOk : Bool) (fs : FS) : List String × FS :=
  if files.length == 0 then ([], fs)
  else
    let fs1 := fsMkdirp fs outputDir
    let r := saveFiles outputDir files fs1
    if r.1.length > 0 then
      (r.1, if indexWriteOk then createIndexFile outputDir r.1 r.2 else r.2)
    else (r.1, r.2)

/-- Outcome of one `getChat` poll: the observed status string (the value of
`chat.latestVersion?.status || unknown`), or a thrown error. -/
inductive PollOutcome
  | ok (status : String)
  | threw
deriving DecidableEq

/-- Outcome of one `downloadGeneratedCode` invocation: the saved-path list, or
a thrown error. -/
inductive DlOutcome
  | ok (files : List String)
  | threw
deriving DecidableEq

/-- Oracles for the remote side: the result of the n-th poll and of the n-th
download attempt (both 1-indexed). -/
structure WaitEnv where
  polls : Nat → PollOutcome
  downloads : Nat → DlOutcome

/-- Observable events of one wait: polls (tagged with the value of the
`attempts` counter), status-transition reports, download attempts (tagged
with a call counter), the steady-state 2000 ms sleep, and the catch-handler
backoff sleeps. -/
inductive WEvent
  | poll (attempt : Nat) (outcome : PollOutcome)
  | report (old new : String)
  | download (call : Nat) (outcome : DlOutcome)
  | sleep (ms : Nat)
  | backoff (ms : Nat)
deriving DecidableEq

/-- Result of the polling loop: `result = some files` when a `return` fired
inside the loop, `none` when the deadline expired; plus the event trace and
the final values of the attempt and download-call counters. -/
structure LoopOut where
  result : Option (List String)
  trace : List WEvent
  attempts : Nat
  dl : Nat
deriving DecidableEq

/-- One iteration of the while-loop body of `waitAndDownloadEnforced`
(src/unnamed/part_000 lines 266-316), for attempt number `att`: poll; on a
thrown poll the outer catch records the error and sleeps 5000 ms when
`attempts % 5 === 0`, else 3000 ms, and polling resumes.  On an observed
status, first report the transition when it differs from `lastStatus` (and
update it); then on `completed` download - return when non-empty, else fall
through to the steady 2000 ms sleep, while a thrown download is absorbed by
the same outer catch (backoff, poll again); on `failed` download and return
whatever it yields, even the empty list - a throw from that download is
re-thrown by the inner catch as `Generation failed and no files available`
but lands in the outer catch of the same loop, so the wait backs off and
keeps polling; on any other status fall through to the 2000 ms sleep.  The
result says whether the iteration returned (`done`) or the loop continues
after sleeping `ms` (`continue_`), and carries the events, the download-call
counter, and the updated `lastStatus`. -/
inductive StepRes
  | done (files : List String) (events : List WEvent) (dl : Nat)
  | continue_ (ms : Nat) (events : List WEvent) (dl : Nat) (lastStatus : String)

/-- The loop body described above, for attempt number `att`. -/
def waitStep (env : WaitEnv) (att dl : Nat) (lastStatus : String) : StepRes :=
  match env.polls att with
  | .threw =>
    let b := if att % 5 == 0 then 5000 else 3000
    .continue_ b [.poll att .threw, .backoff b] dl lastStatus
  | .ok status =>
    let rep : List WEvent :=
      if status == lastStatus then [] else [.report lastStatus status]
    if status == "completed" then
      match env.downloads (dl + 1) with
      | .ok files =>
        if files.length > 0 then
          .done files
            (.poll att (.ok status) :: rep ++ [.download (dl + 1) (.ok files)])
            (dl + 1)
        else
          .continue_ 2000
            (.poll att (.ok status) :: rep ++
              [.download (dl + 1) (.ok files), .sleep 2000])
            (dl + 1) status
      | .threw =>
        let b := if att % 5 == 0 then 5000 else 3000
        .continue_ b
          (.poll att (.ok status) :: rep ++ [.download (dl + 1) .threw, .backoff b])
          (dl + 1) status
    else if status == "failed" then
      match env.downloads (dl + 1) with
      | .ok files =>
        .done files
          (.poll att (.ok status) :: rep ++ [.download (dl + 1) (.ok files)])
          (dl + 1)
      | .threw =>
        let b := if att % 5 == 0 then 5000 else 3000
        .continue_ b
          (.poll att (.ok status) :: rep ++ [.download (dl + 1) .threw, .backoff b])
          (dl + 1) status
    else
      .continue_ 2000 (.poll att (.ok status) :: rep ++ [.sleep 2000]) dl status

/-- The while-loop of `waitAndDownloadEnforced` (part_000 lines 265-317):
`now` is `Date.now() - startTime` in ms; while `now < maxWaitMs`, run one
body iteration with the incremented attempt counter and either return its
files or sleep and continue.  The fuel argument only bounds the recursion;
it is checked inside the deadline test and, because every iteration advances
`now` by at least 2000 ms, a fuel of `maxWaitMs / 2000 + 1` iterations can
never be exhausted before the deadline (at fuel zero both exits coincide, so
the top-level fuel of `maxWaitTime + 1` is more than enough). -/
def waitLoop (env : WaitEnv) (M : Nat) : Nat → Nat → Nat → Nat → String → LoopOut
  | 0, _, attempts, dl, _ => ⟨none, [], attempts, dl⟩
  | fuel + 1, now, attempts, dl, lastStatus =>
    if now < M then
      match waitStep env (attempts + 1) dl lastStatus with
      | .done files evs dl2 => ⟨some files, evs, attempts + 1, dl2⟩
      | .continue_ ms evs dl2 last2 =>
        let r := waitLoop env M fuel (now + ms) (attempts + 1) dl2 last2
        ⟨r.result, evs ++ r.trace, r.attempts, r.dl⟩
    else ⟨none, [], attempts, dl⟩

/-- Delays of the three final download strategies: immediate, +5 s, +15 s
(part_000 lines 322-326). -/
def finalStrategyDelays : List Nat := [0, 5000, 15000]

/-- The final-strategies loop (part_000 lines 328-343): try each strategy in
order, stop at the first non-empty file list; a thrown download is caught and
the next strategy runs; exhaustion yields the empty list. -/
def runFinalStrategies (env : WaitEnv) (dl : Nat) : List Nat → List String × List WEvent
  | [] => ([], [])
  | d :: rest =>
    match env.downloads (dl + 1) with
    | .ok files =>
      if files.length > 0 then (files, [.sleep d, .download (dl + 1) (.ok files)])
      else
        let r := runFinalStrategies env (dl + 1) rest
        (r.1, .sleep d :: .download (dl + 1) (.ok files) :: r.2)
    | .threw =>
      let r := runFinalStrategies env (dl + 1) rest
      (r.1, .sleep d :: .download (dl + 1) .threw :: r.2)

/-- `waitAndDownloadEnforced` (part_000 lines 257-344): run the polling loop
from a zero clock, `attempts = 0`, `lastStatus = unknown`; if the deadline
expires, run the final strategies and return their result (the empty list
when everything stayed empty - returned normally, never thrown). -/
def waitAndDownloadEnforced (env : WaitEnv) (maxWaitTime : Nat) :
    List String × List WEvent :=
  let lo := waitLoop env (maxWaitTime * 1000) (maxWaitTime + 1) 0 0 0 "unknown"
  match lo.result with
  | some files => (files, lo.trace)
  | none =>
    let r := runFinalStrategies env lo.dl finalStrategyDelays
    (r.1, lo.trace ++ r.2)

/-- A stage of the staged retry sequence is `emptyOrFail` when it throws or
yields zero files - both lead to the next stage. -/
def emptyOrFail : DlOutcome → Bool
  | .ok files => files.length == 0
  | .threw => true

/-- The staged retry orchestrator over the outcomes of its stages: the final
strategies loop of `waitAndDownloadEnforced` (part_000 lines 328-343) and the
aggressive retry loop of `createAndDownload` (part_000 lines 419-436) share
this shape - try each stage in order, a non-empty list is the final result
and stops the sequence, a throw or an empty list leads to the next stage, and
exhaustion returns the empty list normally.  The second component counts the
stages actually invoked. -/
def downloadWithRetries : List DlOutcome → List String × Nat
  | [] => ([], 0)
  | .ok files :: rest =>
    if files.length > 0 then (files, 1)
    else
      let r := downloadWithRetries rest
      (r.1, r.2 + 1)
  | .threw :: rest =>
    let r := downloadWithRetries rest
    (r.1, r.2 + 1)

/-- CLI options of the enforced script (part_000 lines 468-476). -/
structure CliOptions where
  prompt : String
  system : String
  modelId : String
  thinking : Bool
  privacy : String
  outputDir : String
  help : Bool
deriving DecidableEq

/-- Defaults of `parseArgs` (part_000 lines 468-476). -/
def defaultOptions : CliOptions :=
  { prompt := "", system := "", modelId := "v0-1.5-md", thinking := false,
    privacy := "private", outputDir := "./src/components", help := false }

/-- The argument scan of `parseArgs` (part_000 lines 478-516).  A flag taking
a value consumes the next argument; `args[++i]` past the end yields
`undefined`, modelled as the empty string (both are falsy where the values
are later tested). -/
def parseArgsLoop : List String → CliOptions → CliOptions
  | [], o => o
  | a :: rest, o =>
    if a == "--prompt" || a == "-p" then
      match rest with
      | v :: rest2 => parseArgsLoop rest2 { o with prompt := v }
      | [] => { o with prompt := "" }
    else if a == "--system" || a == "-s" then
      match rest with
      | v :: rest2 => parseArgsLoop rest2 { o with system := v }
      | [] => { o with system := "" }
    else if a == "--model" || a == "-m" then
      match rest with
      | v :: rest2 => parseArgsLoop rest2 { o with modelId := v }
      | [] => { o with modelId := "" }
    else if a == "--thinking" || a == "-t" then
      parseArgsLoop rest { o with thinking := true }
    else if a == "--privacy" then
      match rest with
      | v :: rest2 => parseArgsLoop rest2 { o with privacy := v }
      | [] => { o with privacy := "" }
    else if a == "--output" || a == "-o" then
      match rest with
      | v :: rest2 => parseArgsLoop rest2 { o with outputDir := v }
      | [] => { o with outputDir := "" }
    else if a == "--help" || a == "-h" then
      parseArgsLoop rest { o with help := true }
    else if o.prompt == "" && !(jsStartsWith a "-") then
      parseArgsLoop rest { o with prompt := a }
    else
      parseArgsLoop rest o

/-- `parseArgs` (part_000 lines 466-519). -/
def parseArgs (args : List String) : CliOptions :=
  parseArgsLoop args defaultOptions

/-- Valid model identifiers (part_000 line 617). -/
def validModels : List String :=
  ["v0-1.5-sm", "v0-1.5-md", "v0-1.5-lg", "v0-gpt-5"]

/-- Valid privacy levels (part_000 line 625). -/
def validPrivacy : List String :=
  ["private", "public", "team", "team-edit", "unlisted"]

/-- What the entry block does before any remote call: exit with a status
code, or proceed to the remote `createAndDownload` call. -/
inductive EntryOutcome
  | exit (code : Nat)
  | remote
deriving DecidableEq

/-- The `require.main` entry block (part_000 lines 588-635): missing API key
exits 1; then `--help` exits 0, a missing prompt exits 1, an invalid model or
privacy level exits 1; only then is the remote call made. -/
def entryMain (hasApiKey : Bool) (args : List String) : EntryOutcome :=
  if !hasApiKey then .exit 1
  else
    let o := parseArgs args
    if o.help then .exit 0
    else if o.prompt == "" then .exit 1
    else if !(validModels.contains o.modelId) then .exit 1
    else if !(validPrivacy.contains o.privacy) then .exit 1
    else .remote

/-- Replace every occurrence of `pat` (non-empty) in a char list, scanning
left to right; the fuel is the length of the scanned list, which bounds the
number of steps. -/
def replaceFuel (pat rep : List Char) : Nat → List Char → List Char
  | 0, s => s
  | _ + 1, [] => []
  | fuel + 1, c :: rest =>
    if !pat.isEmpty && pat.isPrefixOf (c :: rest) then
      rep ++ replaceFuel pat rep fuel ((c :: rest).drop pat.length)
    else
      c :: replaceFuel pat rep fuel rest

/-- Global replacement of a literal pattern, as
`content.replace(new RegExp(wrongPath, g), correctPath)` performs on the
mapping table below.  (In the JS regexp the dot of `./ui/` is a wildcard;
the claims settled here depend only on the `modified` flag, whose guard is
the literal `content.includes(wrongPath)` in both the source and this
embedding.) -/
def strReplace (s pat rep : String) : String :=
  ⟨replaceFuel pat.data rep.data s.data.length s.data⟩

/-- The static import-fix mapping table
(backend-integration-config.js lines 169-174). -/
def importFixes : List (String × String) :=
  [("from \"components/", "from \"@/components/"),
   ("from \"lib/", "from \"@/lib/"),
   ("from \"./ui/", "from \"@/components/ui/"),
   ("from \"../ui/", "from \"@/components/ui/")]

/-- The per-file rewrite of `fixImportPaths` (lines 165-181): apply each fix
whose pattern occurs in the evolving content, tracking whether anything
matched. -/
def applyImportFixes (content : String) : String × Bool :=
  importFixes.foldl
    (fun acc fix =>
      if jsIncludes acc.1 fix.1 then (strReplace acc.1 fix.1 fix.2, true)
      else acc)
    (content, false)

/-- `fixImportPaths` (backend-integration-config.js lines 160-189): process
each `.tsx`/`.ts` file in order, writing it back only when a fix matched.
There is no per-file try/catch: a file whose read fails (modelled by a
missing path) throws, aborting the loop - the second component carries the
failing path, and the files after it are left unprocessed. -/
def fixImportPaths : List String → FS → FS × Option String
  | [], fs => (fs, none)
  | f :: rest, fs =>
    if jsEndsWith f ".tsx" || jsEndsWith f ".ts" then
      match fsRead fs f with
      | none => (fs, some f)
      | some content =>
        let r := applyImportFixes content
        let fs2 := if r.2 then fsWrite fs f r.1 else fs
        fixImportPaths rest fs2
    else fixImportPaths rest fs

/-- The import-fixing step as run by `ensureBackendIntegration`
(backend-integration-config.js lines 80-108): the surrounding try/catch logs
any error and returns, so a throw inside `fixImportPaths` never propagates
to the materialization pipeline. -/
def ensureBackendIntegration (files : List String) (fs : FS) : FS :=
  (fixImportPaths files fs).1

/-- Attempt tags of the poll events of a trace, in order. -/
def pollAttemptsOf (t : List WEvent) : List Nat :=
  t.filterMap fun e =>
    match e with
    | .poll k _ => some k
    | _ => none

/-- Statuses observed by the successful polls of a trace, in order. -/
def observedOf (t : List WEvent) : List String :=
  t.filterMap fun e =>
    match e with
    | .poll _ (.ok s) => some s
    | _ => none

/-- Status-transition reports of a trace, in order. -/
def reportsOf (t : List WEvent) : List (String × String) :=
  t.filterMap fun e =>
    match e with
    | .report a b => some (a, b)
    | _ => none

/-- The transitions of a status sequence relative to a last-seen value: one
pair per change, none for a repeated status. -/
def statusChanges (last : String) : List String → List (String × String)
  | [] => []
  | s :: rest =>
    if s == last then statusChanges last rest
    else (last, s) :: statusChanges s rest

/-- Checks the backoff the code actually applies: every thrown poll is
immediately followed by a backoff of 5000 ms when the attempt counter is a
multiple of 5, and 3000 ms otherwise. -/
def codeBackoffOk : List WEvent → Bool
  | [] => true
  | .poll k .threw :: .backoff b :: rest =>
    (b == if k % 5 == 0 then 5000 else 3000) && codeBackoffOk rest
  | .poll _ .threw :: _ => false
  | _ :: rest => codeBackoffOk rest

/-- Modelled from the spec: the backoff the claim asserts, as a function of
the number of consecutive failed attempts - 5 s on every 5th consecutive
failure, 3 s otherwise. -/
def claimBackoff (consecFails : Nat) : Nat :=
  if consecFails % 5 == 0 then 5000 else 3000

/-- Modelled from the spec: checks a trace against the claimed backoff
schedule, counting consecutive failures (a successful poll resets the
count). -/
def claimBackoffOk : Nat → List WEvent → Bool
  | _, [] => true
  | c, .poll _ .threw :: .backoff b :: rest =>
    (b == claimBackoff (c + 1)) && claimBackoffOk (c + 1) rest
  | _, .poll _ .threw :: _ => false
  | _, .poll _ (.ok _) :: rest => claimBackoffOk 0 rest
  | c, _ :: rest => claimBackoffOk c rest

/-- Modelled from the spec: a file is component-like per the claim wording
when its name ends in a recognized component-source extension and it is not
literally named `index`. -/
def claimComponentLike (f : String) : Bool :=
  (jsEndsWith f ".jsx" || jsEndsWith f ".tsx" || jsEndsWith f ".js") &&
    !(baseName f == "index")

/-- Environment of the failing input for the failed-status behavior: every
poll observes `failed` and every download attempt throws. -/
def envFailedThrow : WaitEnv :=
  { polls := fun _ => .ok "failed", downloads := fun _ => .threw }

/-- Environment in which every poll observes `failed` and every download
returns the empty list. -/
def envFailedEmpty : WaitEnv :=
  { polls := fun _ => .ok "failed", downloads := fun _ => .ok [] }

/-- Environment in which the first poll observes `pending` and every later
poll throws; downloads return the empty list. -/
def envOnePendingThenThrow : WaitEnv :=
  { polls := fun k => if k == 1 then .ok "pending" else .threw,
    downloads := fun _ => .ok [] }

/-- Environment in which the first poll observes `completed` and the download
yields one file. -/
def envCompletedOneFile : WaitEnv :=
  { polls := fun _ => .ok "completed", downloads := fun _ => .ok ["a"] }

/-! ## Helper lemmas about the file-system model and the save loop -/

theorem fsMkdirp_files (fs : FS) (d : String) : (fsMkdirp fs d).files = fs.files := by
  unfold fsMkdirp; split <;> rfl

theorem fsMkdirp_dirs_mono {fs : FS} {x : String} (d : String) (h : x ∈ fs.dirs) :
    x ∈ (fsMkdirp fs d).dirs := by
  unfold fsMkdirp; split
  · exact h
  · exact List.mem_cons_of_mem _ h

theorem fsMkdirp_self_mem (fs : FS) (d : String) : d ∈ (fsMkdirp fs d).dirs := by
  unfold fsMkdirp; split
  · next h => simpa using h
  · show d ∈ d :: fs.dirs
    exact List.mem_cons_self _ _

theorem fsWrite_dirs (fs : FS) (p c : String) : (fsWrite fs p c).dirs = fs.dirs := rfl

theorem fsRead_fsWrite_ne {p q : String} (fs : FS) (c : String) (h : p ≠ q) :
    fsRead (fsWrite fs p c) q = fsRead fs q := by
  unfold fsRead fsWrite
  rw [show ((p, c) :: fs.files).find? (fun e => e.1 == q)
        = fs.files.find? (fun e => e.1 == q) from
      List.find?_cons_of_neg _ (by simpa using h)]

/-- Characterization of the save loop: the returned paths are exactly the
paths of the resolvable entries in input order, and the on-disk file list
holds the writes of the resolvable entries (in reverse, since a later write
shadows) on top
of the initial state. -/
theorem saveFiles_spec (outputDir : String) (files : List V0File) (fs : FS) :
    (saveFiles outputDir files fs).1
      = files.filterMap (fun f => (resolveFile f).map (fun nc => pathJoin outputDir nc.1)) ∧
    (saveFiles outputDir files fs).2.files
      = (files.filterMap (fun f =>
          (resolveFile f).map (fun nc => (pathJoin outputDir nc.1, nc.2)))).reverse
        ++ fs.files := by
  induction files generalizing fs with
  | nil => simp [saveFiles]
  | cons f rest ih =>
    cases h : resolveFile f with
    | none => simpa [saveFiles, h, List.filterMap_cons] using ih fs
    | some nc =>
      have h2 := ih (fsWrite (fsMkdirp fs (dirname (pathJoin outputDir nc.1)))
        (pathJoin outputDir nc.1) nc.2)
      simp only [saveFiles, h, List.filterMap_cons, Option.map_some]
      refine ⟨by simp [h2.1], ?_⟩
      rw [h2.2]
      simp [fsWrite, fsMkdirp_files]

theorem saveFiles_dirs_mono (outputDir : String) (files : List V0File) {fs : FS}
    {d : String} (h : d ∈ fs.dirs) :
    d ∈ (saveFiles outputDir files fs).2.dirs := by
  induction files generalizing fs with
  | nil => exact h
  | cons f rest ih =>
    cases hr : resolveFile f with
    | none => simpa [saveFiles, hr] using ih h
    | some nc =>
      simp only [saveFiles, hr]
      exact ih (by
        show d ∈ (fsWrite _ _ _).dirs
        rw [fsWrite_dirs]
        exact fsMkdirp_dirs_mono _ h)

theorem createIndexFile_dirs (outputDir : String) (savedFiles : List String) (fs : FS) :
    (createIndexFile outputDir savedFiles fs).dirs = fs.dirs := by
  by_cases hc : ((savedFiles.filter isComponentFile).length == 0) = true
  · simp [createIndexFile, hc]
  · simp [createIndexFile, hc, fsWrite]

theorem resolveFile_of_wellFormed {f : V0File} (h : wellFormed f = true) :
    resolveFile f = some (fileNameOf f, contentOf f) := by
  unfold wellFormed at h
  unfold resolveFile fileNameOf contentOf
  rw [if_pos h]

theorem find?_key_of_nodup {l : List (String × String)} {k : String} {v : String}
    (hm : (k, v) ∈ l) (hn : (l.map Prod.fst).Nodup) :
    l.find? (fun e => e.1 == k) = some (k, v) := by
  induction l with
  | nil => cases hm
  | cons a t ih =>
    by_cases hk : a.1 = k
    · rw [List.find?_cons_of_pos _ (by simpa using hk)]
      rcases List.mem_cons.1 hm with h | h
      · rw [h]
      · exfalso
        have : k ∈ t.map Prod.fst := List.mem_map_of_mem Prod.fst h
        have := (List.nodup_cons.1 hn).1
        exact this (hk ▸ ‹k ∈ t.map Prod.fst›)
    · rw [List.find?_cons_of_neg _ (by simpa using hk)]
      rcases List.mem_cons.1 hm with h | h
      · exact absurd (congrArg Prod.fst h.symm) hk
      · exact ih h (List.nodup_cons.1 hn).2

/-! ## C1 - the write phase on well-formed pairs -/

/-- C1, counterexample: with two well-formed pairs sharing the name `a.js`
the write phase returns two entries in input order, but reading the path of
the first entry back yields the content of the second pair, so the read-back
guarantee fails as stated.  The collision does not even require equal names:
`./a.js` and `a.js` are distinct names whose `path.join` with the root
normalizes to the same on-disk path, with the same overwrite. -/
theorem c1_materialize_counterexample :
    (saveFiles "out"
      [⟨some "a.js", some "x", none, none⟩, ⟨some "a.js", some "y", none, none⟩]
      ⟨[], []⟩).1 = ["out/a.js", "out/a.js"] ∧
    wellFormed ⟨some "a.js", some "x", none, none⟩ = true ∧
    wellFormed ⟨some "a.js", some "y", none, none⟩ = true ∧
    fsRead (saveFiles "out"
      [⟨some "a.js", some "x", none, none⟩, ⟨some "a.js", some "y", none, none⟩]
      ⟨[], []⟩).2 "out/a.js" = some "y" ∧
    some "y" ≠ some "x" ∧
    ("./a.js" : String) ≠ "a.js" ∧
    pathJoin "out" "./a.js" = pathJoin "out" "a.js" ∧
    fsRead (saveFiles "out"
      [⟨some "./a.js", some "x", none, none⟩, ⟨some "a.js", some "y", none, none⟩]
      ⟨[], []⟩).2 (pathJoin "out" "./a.js") = some "y" := by decide

/-- C1, amended: for N well-formed pairs whose resolved destination paths
`path.join(root, name)` are pairwise distinct, the write phase returns
exactly N entries, one per pair in input order, and each written path reads
back the content of its pair byte-identically.  (Distinct names alone do not
suffice: `path.join` normalization can collapse them, see the
counterexample.) -/
theorem c1_materialize_amended (outputDir : String) (files : List V0File) (fs : FS)
    (hwf : ∀ f ∈ files, wellFormed f = true)
    (hnd : (files.map (fun f => pathJoin outputDir (fileNameOf f))).Nodup) :
    (saveFiles outputDir files fs).1
      = files.map (fun f => pathJoin outputDir (fileNameOf f)) ∧
    ∀ f ∈ files,
      fsRead (saveFiles outputDir files fs).2 (pathJoin outputDir (fileNameOf f))
        = some (contentOf f) := by
  have hres : ∀ f ∈ files, resolveFile f = some (fileNameOf f, contentOf f) :=
    fun f hf => resolveFile_of_wellFormed (hwf f hf)
  obtain ⟨hsaved, hfsfiles⟩ := saveFiles_spec outputDir files fs
  constructor
  · rw [hsaved]
    rw [List.filterMap_congr
      (g := fun f => (some (fileNameOf f, contentOf f)).map
        (fun nc => pathJoin outputDir nc.1))
      (fun f hf => by rw [hres f hf])]
    exact congrFun (List.filterMap_eq_map _) files
  · intro f hf
    have hW : files.filterMap (fun f =>
        (resolveFile f).map (fun nc => (pathJoin outputDir nc.1, nc.2)))
      = files.map (fun f => (pathJoin outputDir (fileNameOf f), contentOf f)) := by
      rw [List.filterMap_congr
        (g := fun f => (some (fileNameOf f, contentOf f)).map
          (fun nc => (pathJoin outputDir nc.1, nc.2)))
        (fun f hf => by rw [hres f hf])]
      exact congrFun (List.filterMap_eq_map _) files
    rw [hW] at hfsfiles
    unfold fsRead
    rw [hfsfiles, List.find?_append]
    have hkeys : (((files.map
        (fun f => (pathJoin outputDir (fileNameOf f), contentOf f))).reverse).map
          Prod.fst).Nodup := by
      rw [List.map_reverse, List.nodup_reverse, List.map_map]
      have : (Prod.fst ∘ fun f =>
          (pathJoin outputDir (fileNameOf f), contentOf f))
          = fun f => pathJoin outputDir (fileNameOf f) := rfl
      rw [this]
      exact hnd
    have hmem : (pathJoin outputDir (fileNameOf f), contentOf f)
        ∈ (files.map (fun f => (pathJoin outputDir (fileNameOf f), contentOf f))).reverse := by
      rw [List.mem_reverse]
      exact List.mem_map_of_mem _ hf
    rw [find?_key_of_nodup hmem hkeys]
    rfl

/-- C1, witness for the amended theorem at two distinct well-formed pairs. -/
theorem c1_materialize_witness :
    (saveFiles "out"
      [⟨some "Button.tsx", some "b", none, none⟩, ⟨some "Card.tsx", some "c", none, none⟩]
      ⟨[], []⟩).1 = ["out/Button.tsx", "out/Card.tsx"] ∧
    fsRead (saveFiles "out"
      [⟨some "Button.tsx", some "b", none, none⟩, ⟨some "Card.tsx", some "c", none, none⟩]
      ⟨[], []⟩).2 "out/Button.tsx" = some "b" := by
  obtain ⟨h1, h2⟩ := c1_materialize_amended "out"
    [⟨some "Button.tsx", some "b", none, none⟩, ⟨some "Card.tsx", some "c", none, none⟩]
    ⟨[], []⟩ (by decide) (by decide)
  exact ⟨by simpa using h1,
    by simpa using h2 ⟨some "Button.tsx", some "b", none, none⟩ (by simp)⟩

/-! ## C3 - the skip rule of the save loop -/

/-- C3: the save loop returns exactly the resolvable entries (in order), the
written files are exactly the writes of the resolvable entries, and an entry with a
defined name but empty content is unresolvable: it is skipped, produces no
written file, does not appear in the returned list, and - the result being a
filterMap over the whole input - the remaining entries are still processed,
with no error raised. -/
theorem c3_skip_missing_or_empty :
    (∀ (outputDir : String) (files : List V0File) (fs : FS),
      (saveFiles outputDir files fs).1
        = files.filterMap
            (fun f => (resolveFile f).map (fun nc => pathJoin outputDir nc.1)) ∧
      (saveFiles outputDir files fs).2.files
        = (files.filterMap (fun f =>
            (resolveFile f).map (fun nc => (pathJoin outputDir nc.1, nc.2)))).reverse
          ++ fs.files) ∧
    resolveFile ⟨some "Button.tsx", some "", none, none⟩ = none ∧
    resolveFile ⟨none, some "content", none, none⟩ = none := by
  exact ⟨fun outputDir files fs => saveFiles_spec outputDir files fs, by decide, by decide⟩

/-! ## C10 - the frame effect on an empty fetched file list -/

/-- C10: with zero fetched output files the write phase returns the empty
list and the file system is untouched (the destination root is not created);
with a non-empty fetched list the destination root is created, even when
every entry is malformed and subsequently skipped. -/
theorem c10_no_effect_on_empty (outputDir : String) (ok : Bool) (fs : FS) :
    downloadGeneratedCode [] outputDir ok fs = ([], fs) ∧
    ∀ files : List V0File, files ≠ [] →
      outputDir ∈ (downloadGeneratedCode files outputDir ok fs).2.dirs := by
  constructor
  · rfl
  · intro files hne
    have hlen : (files.length == 0) = false := by
      simp [List.length_eq_zero, hne]
    have hroot : outputDir ∈ (saveFiles outputDir files (fsMkdirp fs outputDir)).2.dirs :=
      saveFiles_dirs_mono outputDir files (fsMkdirp_self_mem fs outputDir)
    by_cases hs : (saveFiles outputDir files (fsMkdirp fs outputDir)).1.length > 0
    · cases ok with
      | true =>
        simpa [downloadGeneratedCode, hlen, hs, createIndexFile_dirs] using hroot
      | false =>
        simpa [downloadGeneratedCode, hlen, hs] using hroot
    · simpa [downloadGeneratedCode, hlen, hs] using hroot

/-- C10, witness: a singleton fetched list whose only entry is malformed
still creates the destination root, and the empty list leaves the file
system untouched. -/
theorem c10_no_effect_on_empty_witness :
    downloadGeneratedCode [] "./src/components" true ⟨[], []⟩ = ([], ⟨[], []⟩) ∧
    "./src/components" ∈ (downloadGeneratedCode [⟨none, none, none, none⟩]
      "./src/components" true ⟨[], []⟩).2.dirs := by
  obtain ⟨h1, h2⟩ := c10_no_effect_on_empty "./src/components" true ⟨[], []⟩
  exact ⟨h1, h2 [⟨none, none, none, none⟩] (by simp)⟩

/-! ## C4 - CLI entry behavior for help and missing prompt -/

/-- C4, counterexample: a help invocation exits with status 0, not with a
non-zero status as claimed. -/
theorem c4_cli_counterexample : entryMain true ["--help"] = EntryOutcome.exit 0 := by
  decide

/-- C4, amended: a help invocation exits with status 0 and a missing required
prompt exits with status 1; in both cases the entry block never reaches the
remote call. -/
theorem c4_cli_amended (args : List String) :
    ((parseArgs args).help = true →
      entryMain true args = .exit 0 ∧ entryMain true args ≠ .remote) ∧
    ((parseArgs args).help = false → (parseArgs args).prompt = "" →
      entryMain true args = .exit 1 ∧ entryMain true args ≠ .remote) := by
  constructor
  · intro h
    have : entryMain true args = .exit 0 := by simp [entryMain, h]
    exact ⟨this, by simp [this]⟩
  · intro h hp
    have : entryMain true args = .exit 1 := by simp [entryMain, h, hp]
    exact ⟨this, by simp [this]⟩

/-- C4, witness: the amended theorem applied to a help invocation and to an
empty command line. -/
theorem c4_cli_witness :
    entryMain true ["--help"] = .exit 0 ∧ entryMain true [] = .exit 1 :=
  ⟨((c4_cli_amended ["--help"]).1 (by decide)).1,
   ((c4_cli_amended []).2 (by decide) (by decide)).1⟩

/-! ## C6 - the staged retry orchestrator -/

theorem downloadWithRetries_all_empty {stages : List DlOutcome}
    (h : ∀ s ∈ stages, emptyOrFail s = true) :
    downloadWithRetries stages = ([], stages.length) := by
  induction stages with
  | nil => rfl
  | cons s rest ih =>
    have hs := h s (List.mem_cons_self _ _)
    have hrest := ih (fun x hx => h x (List.mem_cons_of_mem _ hx))
    cases s with
    | ok files =>
      have : (files.length == 0) = true := hs
      have hlen : ¬ files.length > 0 := by simpa using this
      simp [downloadWithRetries, hlen, hrest]
    | threw => simp [downloadWithRetries, hrest]

theorem downloadWithRetries_first_nonempty (pre : List DlOutcome)
    {files : List String} (post : List DlOutcome)
    (hne : files.length > 0) (hpre : ∀ s ∈ pre, emptyOrFail s = true) :
    downloadWithRetries (pre ++ .ok files :: post) = (files, pre.length + 1) := by
  induction pre with
  | nil => simp [downloadWithRetries, hne]
  | cons s t ih =>
    have hs := hpre s (List.mem_cons_self _ _)
    have ht := ih (fun x hx => hpre x (List.mem_cons_of_mem _ hx))
    cases s with
    | ok l =>
      have : (l.length == 0) = true := hs
      have hlen : ¬ l.length > 0 := by simpa using this
      simp [downloadWithRetries, hlen, ht]
    | threw => simp [downloadWithRetries, ht]

/-- C6: the staged retry sequence stops at the first stage returning a
non-empty file list - that list is the final result and the count of invoked
stages is exactly the position of that stage, so no later stage runs; stages
that throw or return zero files lead to the next stage; and if every stage is
empty-or-thrown the result is the empty list, returned normally with all
stages invoked. -/
theorem c6_staged_retry (stages : List DlOutcome) :
    ((∀ s ∈ stages, emptyOrFail s = true) →
      downloadWithRetries stages = ([], stages.length)) ∧
    (∀ (pre : List DlOutcome) (files : List String) (post : List DlOutcome),
      stages = pre ++ .ok files :: post → files.length > 0 →
      (∀ s ∈ pre, emptyOrFail s = true) →
      downloadWithRetries stages = (files, pre.length + 1)) := by
  refine ⟨fun h => downloadWithRetries_all_empty h, ?_⟩
  intro pre files post hst hne hpre
  rw [hst]
  exact downloadWithRetries_first_nonempty pre post hne hpre

/-- C6, witness: the first non-empty stage (the third) ends the sequence with
three stages invoked, and an all-empty sequence returns the empty list with
every stage invoked. -/
theorem c6_staged_retry_witness :
    downloadWithRetries [.threw, .ok [], .ok ["a"], .ok ["b"]] = (["a"], 3) ∧
    downloadWithRetries [.ok [], .threw] = ([], 2) :=
  ⟨by
    have := (c6_staged_retry [.threw, .ok [], .ok ["a"], .ok ["b"]]).2
      [.threw, .ok []] ["a"] [.ok ["b"]] (by decide) (by decide) (by decide)
    simpa using this,
   (c6_staged_retry [.ok [], .threw]).1 (by decide)⟩

/-! ## C7 - the index-manifest step -/

/-- C7, counterexample: `./out/Appindex.js` is component-like per the claim
wording (recognized extension, not literally named `index`), yet the code
generates no manifest for it, because the filter in the code excludes any `.js`
path containing the substring `index` anywhere. -/
theorem c7_manifest_counterexample :
    claimComponentLike "./out/Appindex.js" = true ∧
    createIndexFile "./out" ["./out/Appindex.js"] ⟨[], []⟩ = ⟨[], []⟩ ∧
    fsRead (createIndexFile "./out" ["./out/Appindex.js"] ⟨[], []⟩) "./out/index.js"
      = none := by decide

/-- C7, amended: after the writes, if at least one saved path ends in `.jsx`
or `.tsx`, or ends in `.js` with a full path not containing the substring
`index`, exactly one manifest `index.js` is written at the destination root
re-exporting each such file by its base name; otherwise no manifest is
written; and a failure of the manifest step never changes the list returned
by the write phase. -/
theorem c7_manifest_amended (outputDir : String) (savedFiles : List String) (fs : FS) :
    (savedFiles.filter isComponentFile = [] →
      createIndexFile outputDir savedFiles fs = fs) ∧
    (savedFiles.filter isComponentFile ≠ [] →
      createIndexFile outputDir savedFiles fs
        = fsWrite fs (pathJoin outputDir "index.js")
            (sjoin "\n" ((savedFiles.filter isComponentFile).map exportLine) ++ "\n")) ∧
    (∀ (files : List V0File) (ok : Bool) (fs2 : FS),
      (downloadGeneratedCode files outputDir ok fs2).1
        = (downloadGeneratedCode files outputDir true fs2).1) := by
  refine ⟨fun h => ?_, fun h => ?_, fun files ok fs2 => ?_⟩
  · simp [createIndexFile, h]
  · have : ((savedFiles.filter isComponentFile).length == 0) = false := by
      simpa using h
    simp [createIndexFile, this]
  · by_cases h0 : (files.length == 0) = true
    · simp [downloadGeneratedCode, h0]
    · by_cases hs : (saveFiles outputDir files (fsMkdirp fs2 outputDir)).1.length > 0
      · cases ok <;> simp [downloadGeneratedCode, h0, hs]
      · cases ok <;> simp [downloadGeneratedCode, h0, hs]

/-- C7, witness: a `.tsx` file yields the one-line manifest; a `.md` file
yields none. -/
theorem c7_manifest_witness :
    createIndexFile "out" ["out/App.tsx"] ⟨[], []⟩
      = fsWrite ⟨[], []⟩ (pathJoin "out" "index.js")
          (sjoin "\n" ((["out/App.tsx"].filter isComponentFile).map exportLine) ++ "\n") ∧
    createIndexFile "out" ["out/readme.md"] ⟨[], []⟩ = ⟨[], []⟩ :=
  ⟨((c7_manifest_amended "out" ["out/App.tsx"] ⟨[], []⟩).2).1 (by decide),
   (c7_manifest_amended "out" ["out/readme.md"] ⟨[], []⟩).1 (by decide)⟩

/-! ## C9 - the import-path post-processor -/

theorem applyImportFixes_no_match {content : String}
    (h : ∀ fix ∈ importFixes, jsIncludes content fix.1 = false) :
    applyImportFixes content = (content, false) := by
  have h1 := h ("from \"components/", "from \"@/components/") (by simp [importFixes])
  have h2 := h ("from \"lib/", "from \"@/lib/") (by simp [importFixes])
  have h3 := h ("from \"./ui/", "from \"@/components/ui/") (by simp [importFixes])
  have h4 := h ("from \"../ui/", "from \"@/components/ui/") (by simp [importFixes])
  simp only [applyImportFixes, importFixes, List.foldl_cons, List.foldl_nil]
  simp [h1, h2, h3, h4]

theorem fixImportPaths_frame (files : List String) (fs : FS) (q : String)
    (hq : ∀ fix ∈ importFixes, jsIncludes ((fsRead fs q).getD "") fix.1 = false) :
    fsRead (fixImportPaths files fs).1 q = fsRead fs q := by
  induction files generalizing fs with
  | nil => rfl
  | cons f rest ih =>
    by_cases hts : (jsEndsWith f ".tsx" || jsEndsWith f ".ts") = true
    · cases hr : fsRead fs f with
      | none => simp [fixImportPaths, hts, hr]
      | some content =>
        by_cases hfq : f = q
        · subst hfq
          have hnm : applyImportFixes content = (content, false) := by
            apply applyImportFixes_no_match
            intro fix hfix
            have := hq fix hfix
            rwa [hr] at this
          rw [show fixImportPaths (f :: rest) fs = fixImportPaths rest fs from by
            simp [fixImportPaths, hts, hr, hnm]]
          exact ih fs hq
        · by_cases hm : (applyImportFixes content).2 = true
          · have hrw : fsRead (fsWrite fs f (applyImportFixes content).1) q = fsRead fs q :=
              fsRead_fsWrite_ne fs _ hfq
            rw [show fixImportPaths (f :: rest) fs
                = fixImportPaths rest (fsWrite fs f (applyImportFixes content).1) from by
              simp [fixImportPaths, hts, hr, hm]]
            rw [ih (fsWrite fs f (applyImportFixes content).1)
              (by intro fix hfix; rw [hrw]; exact hq fix hfix)]
            exact hrw
          · have hm2 : (applyImportFixes content).2 = false := by
              simp only [Bool.not_eq_true] at hm
              exact hm
            rw [show fixImportPaths (f :: rest) fs = fixImportPaths rest fs from by
              simp [fixImportPaths, hts, hr, hm2]]
            exact ih fs hq
    · have hts2 : (jsEndsWith f ".tsx" || jsEndsWith f ".ts") = false := by
        simp only [Bool.not_eq_true] at hts
        exact hts
      rw [show fixImportPaths (f :: rest) fs = fixImportPaths rest fs from by
        simp [fixImportPaths, hts2]]
      exact ih fs hq

/-- C9, counterexample: processing `a.ts` fails (its read throws) and the
loop aborts, so `b.ts` - which contains a mapped non-canonical import and
would have been rewritten - is left unprocessed; only the catch of the wrapper
keeps the pipeline alive. -/
theorem c9_importfix_counterexample :
    fixImportPaths ["a.ts", "b.ts"] ⟨[], [("b.ts", "import x from \"lib/x\"")]⟩
      = (⟨[], [("b.ts", "import x from \"lib/x\"")]⟩, some "a.ts") ∧
    (applyImportFixes "import x from \"lib/x\"").2 = true ∧
    ensureBackendIntegration ["a.ts", "b.ts"] ⟨[], [("b.ts", "import x from \"lib/x\"")]⟩
      = ⟨[], [("b.ts", "import x from \"lib/x\"")]⟩ := by decide

/-- C9, amended: a file whose content contains none of the mapped import
substrings is left byte-identical by the integration step; a failure while
processing one file aborts the remaining files of the import-fixing loop
(there is no per-file catch), but the catch of the wrapper absorbs the error, so
the overall materialization pipeline does not fail. -/
theorem c9_importfix_amended :
    (∀ (files : List String) (fs : FS) (q : String),
      (∀ fix ∈ importFixes, jsIncludes ((fsRead fs q).getD "") fix.1 = false) →
      fsRead (ensureBackendIntegration files fs) q = fsRead fs q) ∧
    (∀ (g : String) (rest : List String) (fs : FS),
      (jsEndsWith g ".tsx" || jsEndsWith g ".ts") = true → fsRead fs g = none →
      fixImportPaths (g :: rest) fs = (fs, some g) ∧
      ensureBackendIntegration (g :: rest) fs = fs) := by
  constructor
  · intro files fs q hq
    exact fixImportPaths_frame files fs q hq
  · intro g rest fs hts hr
    have h1 : fixImportPaths (g :: rest) fs = (fs, some g) := by
      simp [fixImportPaths, hts, hr]
    exact ⟨h1, by simp [ensureBackendIntegration, h1]⟩

/-- C9, witness: a clean file is untouched by the integration step, and a
missing `.ts` file aborts the loop while the wrapper still returns. -/
theorem c9_importfix_witness :
    fsRead (ensureBackendIntegration ["b.ts"]
        ⟨[], [("b.ts", "import y from \"@/lib/y\"")]⟩) "b.ts"
      = some "import y from \"@/lib/y\"" ∧
    fixImportPaths ["a.ts"] ⟨[], []⟩ = (⟨[], []⟩, some "a.ts") ∧
    ensureBackendIntegration ["a.ts"] ⟨[], []⟩ = ⟨[], []⟩ := by
  refine ⟨?_, ?_⟩
  · have := (c9_importfix_amended).1 ["b.ts"]
      ⟨[], [("b.ts", "import y from \"@/lib/y\"")]⟩ "b.ts" (by decide)
    rw [this]
    decide
  · exact (c9_importfix_amended).2 "a.ts" [] ⟨[], []⟩ (by decide) (by decide)

/-! ## Helper lemmas about one iteration of the polling loop -/

theorem codeBackoffOk_cons_pollOk (k : Nat) (s : String) (rest : List WEvent) :
    codeBackoffOk (.poll k (.ok s) :: rest) = codeBackoffOk rest := rfl

theorem codeBackoffOk_cons_report (a b : String) (rest : List WEvent) :
    codeBackoffOk (.report a b :: rest) = codeBackoffOk rest := rfl

theorem codeBackoffOk_cons_download (k : Nat) (o : DlOutcome) (rest : List WEvent) :
    codeBackoffOk (.download k o :: rest) = codeBackoffOk rest := rfl

theorem codeBackoffOk_cons_sleep (m : Nat) (rest : List WEvent) :
    codeBackoffOk (.sleep m :: rest) = codeBackoffOk rest := rfl

theorem codeBackoffOk_cons_backoff (m : Nat) (rest : List WEvent) :
    codeBackoffOk (.backoff m :: rest) = codeBackoffOk rest := rfl

theorem codeBackoffOk_threw_backoff (k b : Nat) (rest : List WEvent) :
    codeBackoffOk (.poll k .threw :: .backoff b :: rest)
      = ((b == if k % 5 == 0 then 5000 else 3000) && codeBackoffOk rest) := rfl

theorem waitStep_done_spec {env : WaitEnv} {att dl : Nat} {last : String}
    {files : List String} {evs : List WEvent} {dl2 : Nat}
    (h : waitStep env att dl last = .done files evs dl2) :
    pollAttemptsOf evs = [att] ∧
    reportsOf evs = statusChanges last (observedOf evs) ∧
    evs.getLast? = some (.download dl2 (.ok files)) ∧
    codeBackoffOk evs = true := by
  unfold waitStep at h
  cases hp : env.polls att with
  | threw => rw [hp] at h; simp at h
  | ok status =>
    rw [hp] at h
    simp only at h
    by_cases hc : (status == "completed") = true
    · rw [if_pos hc] at h
      cases hd : env.downloads (dl + 1) with
      | ok dfiles =>
        rw [hd] at h
        simp only at h
        by_cases hn : dfiles.length > 0
        · rw [if_pos hn] at h
          rw [StepRes.done.injEq] at h
          obtain ⟨h1, h2, h3⟩ := h
          subst h1; subst h2; subst h3
          by_cases hrep : (status == last) = true
          · obtain rfl : status = last := by simpa using hrep
            refine ⟨by simp [pollAttemptsOf, hrep],
              by simp [reportsOf, observedOf, statusChanges, hrep],
              by simp [hrep], ?_⟩
            simp [hrep, codeBackoffOk_cons_pollOk, codeBackoffOk_cons_download,
              codeBackoffOk]
          · have hne : (status == last) = false := by
              simp only [Bool.not_eq_true] at hrep; exact hrep
            refine ⟨by simp [pollAttemptsOf, hne],
              by simp [reportsOf, observedOf, statusChanges, hne],
              by simp [hne], ?_⟩
            simp [hne, codeBackoffOk_cons_pollOk, codeBackoffOk_cons_report,
              codeBackoffOk_cons_download, codeBackoffOk]
        · rw [if_neg hn] at h
          cases h
      | threw =>
        rw [hd] at h
        simp only at h
        cases h
    · rw [if_neg hc] at h
      by_cases hf : (status == "failed") = true
      · rw [if_pos hf] at h
        cases hd : env.downloads (dl + 1) with
        | ok dfiles =>
          rw [hd] at h
          simp only at h
          rw [StepRes.done.injEq] at h
          obtain ⟨h1, h2, h3⟩ := h
          subst h1; subst h2; subst h3
          by_cases hrep : (status == last) = true
          · obtain rfl : status = last := by simpa using hrep
            refine ⟨by simp [pollAttemptsOf, hrep],
              by simp [reportsOf, observedOf, statusChanges, hrep],
              by simp [hrep], ?_⟩
            simp [hrep, codeBackoffOk_cons_pollOk, codeBackoffOk_cons_download,
              codeBackoffOk]
          · have hne : (status == last) = false := by
              simp only [Bool.not_eq_true] at hrep; exact hrep
            refine ⟨by simp [pollAttemptsOf, hne],
              by simp [reportsOf, observedOf, statusChanges, hne],
              by simp [hne], ?_⟩
            simp [hne, codeBackoffOk_cons_pollOk, codeBackoffOk_cons_report,
              codeBackoffOk_cons_download, codeBackoffOk]
        | threw =>
          rw [hd] at h
          simp only at h
          cases h
      · rw [if_neg hf] at h
        cases h

theorem waitStep_continue_spec {env : WaitEnv} {att dl : Nat} {last : String}
    {ms : Nat} {evs : List WEvent} {dl2 : Nat} {last2 : String}
    (h : waitStep env att dl last = .continue_ ms evs dl2 last2) :
    pollAttemptsOf evs = [att] ∧
    (∀ rest, statusChanges last (observedOf evs ++ rest)
      = reportsOf evs ++ statusChanges last2 rest) ∧
    (∀ t, codeBackoffOk (evs ++ t) = codeBackoffOk t) := by
  unfold waitStep at h
  cases hp : env.polls att with
  | threw =>
    rw [hp] at h
    simp only at h
    rw [StepRes.continue_.injEq] at h
    obtain ⟨h1, h2, h3, h4⟩ := h
    subst h1; subst h2; subst h3; subst h4
    refine ⟨by simp [pollAttemptsOf], fun rest => by simp [observedOf, reportsOf],
      fun t => ?_⟩
    rw [List.cons_append, List.cons_append, List.nil_append,
      codeBackoffOk_threw_backoff]
    simp
  | ok status =>
    rw [hp] at h
    simp only at h
    by_cases hc : (status == "completed") = true
    · rw [if_pos hc] at h
      cases hd : env.downloads (dl + 1) with
      | ok dfiles =>
        rw [hd] at h
        simp only at h
        by_cases hn : dfiles.length > 0
        · rw [if_pos hn] at h
          cases h
        · rw [if_neg hn] at h
          rw [StepRes.continue_.injEq] at h
          obtain ⟨h1, h2, h3, h4⟩ := h
          subst h1; subst h2; subst h3; subst h4
          by_cases hrep : (status == last) = true
          · obtain rfl : status = last := by simpa using hrep
            refine ⟨by simp [pollAttemptsOf, hrep],
              fun rest => by simp [observedOf, reportsOf, statusChanges, hrep],
              fun t => by
                simp [hrep, List.cons_append, List.nil_append,
                  codeBackoffOk_cons_pollOk, codeBackoffOk_cons_download,
                  codeBackoffOk_cons_sleep]⟩
          · have hne : (status == last) = false := by
              simp only [Bool.not_eq_true] at hrep; exact hrep
            refine ⟨by simp [pollAttemptsOf, hne],
              fun rest => by simp [observedOf, reportsOf, statusChanges, hne],
              fun t => by
                simp [hne, List.cons_append, List.nil_append,
                  codeBackoffOk_cons_pollOk, codeBackoffOk_cons_report,
                  codeBackoffOk_cons_download, codeBackoffOk_cons_sleep]⟩
      | threw =>
        rw [hd] at h
        simp only at h
        rw [StepRes.continue_.injEq] at h
        obtain ⟨h1, h2, h3, h4⟩ := h
        subst h1; subst h2; subst h3; subst h4
        by_cases hrep : (status == last) = true
        · obtain rfl : status = last := by simpa using hrep
          refine ⟨by simp [pollAttemptsOf, hrep],
            fun rest => by simp [observedOf, reportsOf, statusChanges, hrep],
            fun t => by
              simp [hrep, List.cons_append, List.nil_append,
                codeBackoffOk_cons_pollOk, codeBackoffOk_cons_download,
                codeBackoffOk_cons_backoff]⟩
        · have hne : (status == last) = false := by
            simp only [Bool.not_eq_true] at hrep; exact hrep
          refine ⟨by simp [pollAttemptsOf, hne],
            fun rest => by simp [observedOf, reportsOf, statusChanges, hne],
            fun t => by
              simp [hne, List.cons_append, List.nil_append,
                codeBackoffOk_cons_pollOk, codeBackoffOk_cons_report,
                codeBackoffOk_cons_download, codeBackoffOk_cons_backoff]⟩
    · rw [if_neg hc] at h
      by_cases hf : (status == "failed") = true
      · rw [if_pos hf] at h
        cases hd : env.downloads (dl + 1) with
        | ok dfiles =>
          rw [hd] at h
          simp only at h
          cases h
        | threw =>
          rw [hd] at h
          simp only at h
          rw [StepRes.continue_.injEq] at h
          obtain ⟨h1, h2, h3, h4⟩ := h
          subst h1; subst h2; subst h3; subst h4
          by_cases hrep : (status == last) = true
          · obtain rfl : status = last := by simpa using hrep
            refine ⟨by simp [pollAttemptsOf, hrep],
              fun rest => by simp [observedOf, reportsOf, statusChanges, hrep],
              fun t => by
                simp [hrep, List.cons_append, List.nil_append,
                  codeBackoffOk_cons_pollOk, codeBackoffOk_cons_download,
                  codeBackoffOk_cons_backoff]⟩
          · have hne : (status == last) = false := by
              simp only [Bool.not_eq_true] at hrep; exact hrep
            refine ⟨by simp [pollAttemptsOf, hne],
              fun rest => by simp [observedOf, reportsOf, statusChanges, hne],
              fun t => by
                simp [hne, List.cons_append, List.nil_append,
                  codeBackoffOk_cons_pollOk, codeBackoffOk_cons_report,
                  codeBackoffOk_cons_download, codeBackoffOk_cons_backoff]⟩
      · rw [if_neg hf] at h
        rw [StepRes.continue_.injEq] at h
        obtain ⟨h1, h2, h3, h4⟩ := h
        subst h1; subst h2; subst h3; subst h4
        by_cases hrep : (status == last) = true
        · obtain rfl : status = last := by simpa using hrep
          refine ⟨by simp [pollAttemptsOf, hrep],
            fun rest => by simp [observedOf, reportsOf, statusChanges, hrep],
            fun t => by
              simp [hrep, List.cons_append, List.nil_append,
                codeBackoffOk_cons_pollOk, codeBackoffOk_cons_sleep]⟩
        · have hne : (status == last) = false := by
            simp only [Bool.not_eq_true] at hrep; exact hrep
          refine ⟨by simp [pollAttemptsOf, hne],
            fun rest => by simp [observedOf, reportsOf, statusChanges, hne],
            fun t => by
              simp [hne, List.cons_append, List.nil_append,
                codeBackoffOk_cons_pollOk, codeBackoffOk_cons_report,
                codeBackoffOk_cons_sleep]⟩

/-- Trace invariants of the polling loop: the attempt counter never
decreases, the poll events carry consecutive attempt numbers starting right
after the initial counter value, and the transition reports are exactly the
changes of the observed status sequence relative to the initial
`lastStatus`. -/
theorem waitLoop_trace_spec (env : WaitEnv) (M : Nat) :
    ∀ (fuel now a dl : Nat) (last : String),
      a ≤ (waitLoop env M fuel now a dl last).attempts ∧
      pollAttemptsOf (waitLoop env M fuel now a dl last).trace
        = List.range' (a + 1)
            ((waitLoop env M fuel now a dl last).attempts - a) ∧
      reportsOf (waitLoop env M fuel now a dl last).trace
        = statusChanges last
            (observedOf (waitLoop env M fuel now a dl last).trace) := by
  intro fuel
  induction fuel with
  | zero =>
    intro now a dl last
    refine ⟨le_refl a, ?_, ?_⟩ <;>
      simp [waitLoop, pollAttemptsOf, observedOf, reportsOf, statusChanges]
  | succ fuel ih =>
    intro now a dl last
    by_cases hlt : now < M
    · simp only [waitLoop]
      rw [if_pos hlt]
      cases hs : waitStep env (a + 1) dl last with
      | done files evs dl3 =>
        obtain ⟨hp1, hp2, hp3, hp4⟩ := waitStep_done_spec hs
        simp only
        refine ⟨Nat.le_succ a, ?_, hp2⟩
        rw [hp1, show a + 1 - a = 1 from by omega, List.range'_one]
      | continue_ ms evs dl3 last2 =>
        obtain ⟨hq1, hq2, hq3⟩ := waitStep_continue_spec hs
        obtain ⟨ih1, ih2, ih3⟩ := ih (now + ms) (a + 1) dl3 last2
        simp only
        refine ⟨by omega, ?_, ?_⟩
        · rw [show pollAttemptsOf
              (evs ++ (waitLoop env M fuel (now + ms) (a + 1) dl3 last2).trace)
              = pollAttemptsOf evs
                ++ pollAttemptsOf
                  (waitLoop env M fuel (now + ms) (a + 1) dl3 last2).trace
            from List.filterMap_append _ _ _]
          rw [hq1, ih2,
            show (waitLoop env M fuel (now + ms) (a + 1) dl3 last2).attempts - a
              = ((waitLoop env M fuel (now + ms) (a + 1) dl3 last2).attempts
                  - (a + 1)) + 1 from by omega,
            List.range'_succ]
          rfl
        · rw [show reportsOf
              (evs ++ (waitLoop env M fuel (now + ms) (a + 1) dl3 last2).trace)
              = reportsOf evs
                ++ reportsOf (waitLoop env M fuel (now + ms) (a + 1) dl3 last2).trace
            from List.filterMap_append _ _ _,
            show observedOf
              (evs ++ (waitLoop env M fuel (now + ms) (a + 1) dl3 last2).trace)
              = observedOf evs
                ++ observedOf (waitLoop env M fuel (now + ms) (a + 1) dl3 last2).trace
            from List.filterMap_append _ _ _]
          rw [hq2, ih3]
    · simp only [waitLoop]
      rw [if_neg hlt]
      refine ⟨le_refl a, ?_, ?_⟩ <;>
        simp [pollAttemptsOf, observedOf, reportsOf, statusChanges]

/-! ## C8 - poll-state invariants of one wait -/

/-- C8: over a whole wait (any deadline, any fuel, any remote behavior), the
attempt tags of the poll events are exactly `1, 2, ..., attempts` - the
counter increases by exactly 1 per poll, monotonically - and the transition
reports are exactly the changes of the observed status sequence relative to
the initial sentinel `unknown`: one report per change, none for a poll that
observes the same status as the previous poll. -/
theorem c8_pollstate_invariants (env : WaitEnv) (M fuel : Nat) :
    reportsOf (waitLoop env M fuel 0 0 0 "unknown").trace
      = statusChanges "unknown"
          (observedOf (waitLoop env M fuel 0 0 0 "unknown").trace) ∧
    pollAttemptsOf (waitLoop env M fuel 0 0 0 "unknown").trace
      = List.range' 1 (waitLoop env M fuel 0 0 0 "unknown").attempts := by
  obtain ⟨h1, h2, h3⟩ := waitLoop_trace_spec env M fuel 0 0 0 "unknown"
  exact ⟨h3, by simpa using h2⟩

/-! ## C5 - poll errors, backoff schedule, and termination -/

/-- C5, counterexample: with one successful `pending` poll followed by
throwing polls, the fifth overall attempt is only the fourth consecutive
failure, yet the code backs off 5000 ms there (it tests the total attempt
counter, not consecutive failures), so the claimed consecutive-failure
schedule is violated while the total-counter schedule holds. -/
theorem c5_backoff_counterexample :
    claimBackoffOk 0 (waitAndDownloadEnforced envOnePendingThenThrow 12).2 = false ∧
    codeBackoffOk (waitAndDownloadEnforced envOnePendingThenThrow 12).2 = true := by
  decide

/-- C5, amended: a poll attempt that throws never aborts the wait - it is
always followed by a backoff of 5000 ms when the total attempt counter is a
multiple of 5 and 3000 ms otherwise, after which polling resumes - and the
loop returns early only through a successful download on a terminal observed
status (its trace then ends with that download event); otherwise it runs to
the deadline. -/
theorem c5_poll_error_amended (env : WaitEnv) (M : Nat) :
    ∀ (fuel now a dl : Nat) (last : String),
      codeBackoffOk (waitLoop env M fuel now a dl last).trace = true ∧
      (∀ files, (waitLoop env M fuel now a dl last).result = some files →
        (waitLoop env M fuel now a dl last).trace.getLast?
          = some (.download (waitLoop env M fuel now a dl last).dl (.ok files))) := by
  intro fuel
  induction fuel with
  | zero =>
    intro now a dl last
    exact ⟨rfl, fun files hf => by simp [waitLoop] at hf⟩
  | succ fuel ih =>
    intro now a dl last
    by_cases hlt : now < M
    · simp only [waitLoop]
      rw [if_pos hlt]
      cases hs : waitStep env (a + 1) dl last with
      | done files0 evs dl3 =>
        obtain ⟨hp1, hp2, hp3, hp4⟩ := waitStep_done_spec hs
        simp only
        refine ⟨hp4, fun files hres => ?_⟩
        obtain rfl : files0 = files := Option.some.inj hres
        exact hp3
      | continue_ ms evs dl3 last2 =>
        obtain ⟨hq1, hq2, hq3⟩ := waitStep_continue_spec hs
        obtain ⟨ih1, ih2⟩ := ih (now + ms) (a + 1) dl3 last2
        simp only
        refine ⟨by rw [hq3]; exact ih1, fun files hres => ?_⟩
        rw [List.getLast?_append, ih2 files hres]
        rfl
    · simp only [waitLoop]
      rw [if_neg hlt]
      exact ⟨rfl, fun files hf => by simp at hf⟩

/-- C5, witness: a wait that terminates through a successful download has a
trace ending in that download event, and its backoffs (there are none here)
follow the code schedule. -/
theorem c5_poll_error_witness :
    codeBackoffOk (waitLoop envCompletedOneFile 4000 3 0 0 0 "unknown").trace = true ∧
    (waitLoop envCompletedOneFile 4000 3 0 0 0 "unknown").trace.getLast?
      = some (.download (waitLoop envCompletedOneFile 4000 3 0 0 0 "unknown").dl
          (.ok ["a"])) :=
  ⟨(c5_poll_error_amended envCompletedOneFile 4000 3 0 0 0 "unknown").1,
   (c5_poll_error_amended envCompletedOneFile 4000 3 0 0 0 "unknown").2 ["a"]
     (by decide)⟩

/-! ## C2 - behavior on an observed `failed` status -/

/-- C2: evaluation at the failing input.  First conjunct pair: every poll
observes `failed` and every download attempt throws (a 4-second deadline);
the claim says the wait is terminal there and raises
`Generation failed and no files available`, but the inner re-throw of the code
is caught by the outer catch of the same loop, so the wait keeps polling (two poll
attempts fit the deadline) and finally returns the empty list normally,
never raising.  Second pair: when the download on a `failed` poll succeeds
with the empty list, the wait does return it immediately (one poll) with no
error - the part of the claim the code honors. -/
theorem c2_failed_status_behavior :
    (waitAndDownloadEnforced envFailedThrow 4).1 = [] ∧
    pollAttemptsOf (waitAndDownloadEnforced envFailedThrow 4).2 = [1, 2] ∧
    (waitAndDownloadEnforced envFailedEmpty 4).1 = [] ∧
    pollAttemptsOf (waitAndDownloadEnforced envFailedEmpty 4).2 = [1] := by
  decide
